import Mathlib

/-!
A shallow embedding of the CSV reader in `src/main.py` (Python 3.11), together
with proofs of the specification's claims about it.

Strings are modelled as Lean `String`s (lists of Unicode characters, matching
Python's `str` as a sequence of code points).  A CSV file is modelled as the
sequence of rows produced by the host's CSV parser: `List (List String)`, one
cell list per physical line (a blank line yields `[]`, as `csv.reader` does).
A file that cannot be opened is modelled as `none`.  Fallible code returns
`Except PyError`, whose constructors name the Python exception that the
corresponding code path raises.
-/

namespace CsvReader

/-! ## The identifier sanitizer: `sanitize_field_name` (src/main.py lines 12-35) -/

/-- `[a-zA-Z0-9_]`, the character class kept by the regex on line 32. -/
def isIdentChar (c : Char) : Bool := c.isAlpha || c.isDigit || c == '_'

/-- Line 22-23: `if field_name[0].isdigit(): field_name = 'F' + field_name`.
Python's `str.isdigit` also accepts non-ASCII decimal digits; the embedding
tests ASCII digits.  For a non-ASCII digit first character Python prepends the
guard while the embedding does not, but in both cases the final result starts
with a non-digit (the non-ASCII character is replaced by `_` on line 32), so no
stated property is affected. -/
def guardDigit : List Char → List Char
  | [] => []
  | c :: rest => if c.isDigit then 'F' :: c :: rest else c :: rest

/-- Lines 25-30: the umlaut transliteration table, applied with `str.replace`.
Python applies the seven replacements sequentially; since every key is a single
character and no replacement text contains a key, this equals a per-character
map. -/
def translit (c : Char) : List Char :=
  if c == 'ä' then ['a', 'e']
  else if c == 'ö' then ['o', 'e']
  else if c == 'ü' then ['u', 'e']
  else if c == 'ß' then ['s', 's']
  else if c == 'Ä' then ['A', 'e']
  else if c == 'Ö' then ['O', 'e']
  else if c == 'Ü' then ['U', 'e']
  else [c]

def translitAll : List Char → List Char
  | [] => []
  | c :: rest => translit c ++ translitAll rest

/-- Line 32: `re.sub(r'[^a-zA-Z0-9_]', '_', field_name)`. -/
def replaceInvalid (c : Char) : Char := if isIdentChar c then c else '_'

/-- Line 33: `re.sub(r'__+', '_', field_name)` collapses every maximal run of
two or more underscores into one.  `collapseAux b l` copies `l`, dropping any
underscore that immediately follows an underscore; `b` records whether the
previously emitted character was an underscore. -/
def collapseAux : Bool → List Char → List Char
  | _, [] => []
  | prevU, c :: rest =>
    if c == '_' then
      if prevU then collapseAux true rest else '_' :: collapseAux true rest
    else c :: collapseAux false rest

def sanitizeChars (l : List Char) : List Char :=
  collapseAux false ((translitAll (guardDigit l)).map replaceInvalid)

/-- `sanitize_field_name` (lines 12-35).  On the empty string Python raises
`IndexError` at `field_name[0]`; the pipeline below reports that case
explicitly, and this total function is only applied to non-empty tokens. -/
def sanitize_field_name (s : String) : String := ⟨sanitizeChars s.data⟩

/-! ## The value coercer: `maybe_float` (src/main.py lines 38-48)

`float(value)` for `str` input.  CPython first validates and strips
underscores (each `_` must sit between two ASCII digits), then strips leading
and trailing whitespace, then parses an optional sign followed by either a
case-insensitive special word (`inf`, `infinity`, `nan`) or a decimal mantissa
with optional fraction and exponent.  Deviations of the embedding, none of
which affects a stated claim: CPython also maps non-ASCII decimal digits and
non-ASCII whitespace to their ASCII counterparts before parsing; finite values
are kept as exact rationals instead of being rounded to the nearest
double-precision float (in particular a finite value whose magnitude overflows
the double range is kept finite where CPython returns an infinity). -/

inductive PyFloat
  | finite (q : ℚ)
  | inf
  | neginf
  | nan
deriving DecidableEq

/-- CPython's underscore validation for numeric strings: every `_` must be
immediately preceded and followed by an ASCII digit (so no leading, trailing,
or doubled underscores). `prev` is the preceding character. -/
def undOkAux : Char → List Char → Bool
  | _, [] => true
  | prev, c :: rest =>
    if c == '_' then
      (prev.isDigit && (match rest with | d :: _ => d.isDigit | [] => false))
        && undOkAux c rest
    else undOkAux c rest

def underscoresOk (l : List Char) : Bool :=
  match l with
  | [] => true
  | c :: rest => !(c == '_') && undOkAux c rest

def stripUnderscores (l : List Char) : List Char := l.filter (fun c => !(c == '_'))

def trimWs (l : List Char) : List Char :=
  ((l.dropWhile Char.isWhitespace).reverse.dropWhile Char.isWhitespace).reverse

/-- Returns `(isNegative, rest)` for an optional leading sign. -/
def parseSign : List Char → Bool × List Char
  | '+' :: r => (false, r)
  | '-' :: r => (true, r)
  | l => (false, l)

def digitsToNat (l : List Char) : ℕ :=
  l.foldl (fun a c => 10 * a + (c.toNat - 48)) 0

/-- Case-insensitive comparison with a keyword such as `"inf"`. -/
def lowerEq (l : List Char) (w : String) : Bool :=
  l.map Char.toLower == w.data

/-- The finite-number grammar after sign removal:
`digits? ('.' digits?)? (('e'|'E') sign? digits)?` with at least one mantissa
digit, consuming the whole input.  The value of `I.F e±E` is the exact
rational `(I*10^|F| + F) * 10^(±E) / 10^|F|`, written with `mkRat` over
natural-number arithmetic. -/
def parseNumber (l : List Char) : Option ℚ :=
  let ip := l.takeWhile Char.isDigit
  let r1 := l.dropWhile Char.isDigit
  let fr : List Char × List Char :=
    match r1 with
    | '.' :: r => (r.takeWhile Char.isDigit, r.dropWhile Char.isDigit)
    | _ => ([], r1)
  let fp := fr.1
  let r2 := fr.2
  if ip.isEmpty && fp.isEmpty then none
  else
    let m : ℕ := digitsToNat ip * 10 ^ fp.length + digitsToNat fp
    match r2 with
    | [] => some (mkRat m (10 ^ fp.length))
    | e :: r3 =>
      if e == 'e' || e == 'E' then
        let sr := parseSign r3
        let ed := sr.2.takeWhile Char.isDigit
        let r5 := sr.2.dropWhile Char.isDigit
        if ed.isEmpty || !r5.isEmpty then none
        else if sr.1 then some (mkRat m (10 ^ fp.length * 10 ^ digitsToNat ed))
        else some (mkRat (m * 10 ^ digitsToNat ed) (10 ^ fp.length))
      else none

/-- `float(s)` for a `str` argument: `some` the parsed value, `none` when
CPython raises `ValueError`.  The sign of `nan` is dropped, as the payload of a
NaN is unobservable through the record values. -/
def pyFloatOfString (s : String) : Option PyFloat :=
  let raw := s.data
  if !underscoresOk raw then none
  else
    let l := trimWs (stripUnderscores raw)
    let sr := parseSign l
    let neg := sr.1
    let rest := sr.2
    if lowerEq rest "inf" || lowerEq rest "infinity" then
      some (if neg then PyFloat.neginf else PyFloat.inf)
    else if lowerEq rest "nan" then some PyFloat.nan
    else
      match parseNumber rest with
      | some q => some (PyFloat.finite (if neg then -q else q))
      | none => none

/-- A cell value after coercion: Python's `Union[str, float]`. -/
inductive Value
  | num (f : PyFloat)
  | str (s : String)
deriving DecidableEq

/-- `maybe_float` (lines 38-48): `float(value)` on success, the original string
on `ValueError`. -/
def maybe_float (value : String) : Value :=
  match pyFloatOfString value with
  | some f => Value.num f
  | none => Value.str value

/-! ## The record pipeline: `create_dataclass_from_csv` (src/main.py lines 51-91) -/

/-- The Python exception classes raised by the pipeline's code paths. -/
inductive PyError
  /-- `OSError`: `open(csv_filepath)` fails (line 60 / 77). -/
  | ioError
  /-- `StopIteration`: `next(reader)` on an exhausted reader (lines 62-63, 79-80). -/
  | stopIteration
  /-- `IndexError`: `sanitize_field_name("")` evaluates `field_name[0]` (line 22). -/
  | indexError
  /-- `TypeError`: `make_dataclass` rejects a field name (duplicate, keyword or
  non-identifier, line 68), or `float()` receives a non-string (`None` restval
  or restkey list, line 86). -/
  | typeError
deriving DecidableEq

/-- One `DynamicDataClass` instance: its fields, in declaration order. -/
abbrev Record := List (String × Value)

/-- Python's keywords (`keyword.kwlist`), rejected by `make_dataclass`. -/
def kwlist : List String :=
  ["False", "None", "True", "and", "as", "assert", "async", "await", "break",
   "class", "continue", "def", "del", "elif", "else", "except", "finally",
   "for", "from", "global", "if", "import", "in", "is", "lambda", "nonlocal",
   "not", "or", "pass", "raise", "return", "try", "while", "with", "yield"]

/-- `str.isidentifier` restricted to ASCII.  Python's check also admits
non-ASCII identifiers, but every sanitized field name is ASCII
(`[a-zA-Z0-9_]*`), so on the pipeline's inputs the two agree. -/
def isAsciiIdentifier (s : String) : Bool :=
  match s.data with
  | [] => false
  | c :: _ => !c.isDigit && s.data.all isIdentChar

/-- The validation loop of `dataclasses.make_dataclass` (CPython 3.11, called
on line 68): for each field name in order, raise `TypeError` if it is not an
identifier, is a keyword, or was already seen. -/
def checkFields (seen : List String) : List String → Except PyError Unit
  | [] => Except.ok ()
  | n :: rest =>
    if !isAsciiIdentifier n then Except.error PyError.typeError
    else if kwlist.contains n then Except.error PyError.typeError
    else if seen.contains n then Except.error PyError.typeError
    else checkFields (n :: seen) rest

/-- Python `dict` assignment `d[k] = v`: update in place if the key exists
(keeping its position), otherwise append. -/
def dictInsert (d : List (String × Option String)) (k : String) (v : Option String) :
    List (String × Option String) :=
  if d.any (fun p => p.1 == k) then
    d.map (fun p => if p.1 == k then (k, v) else p)
  else d ++ [(k, v)]

def insertPairs (d : List (String × Option String)) :
    List (String × String) → List (String × Option String)
  | [] => d
  | p :: rest => insertPairs (dictInsert d p.1 (some p.2)) rest

def insertNones (d : List (String × Option String)) :
    List String → List (String × Option String)
  | [] => d
  | k :: rest => insertNones (dictInsert d k none) rest

/-- `csv.DictReader.__next__`'s row dictionary: `d = dict(zip(fieldnames, row))`,
then, when the row is short, `d[key] = None` (the default `restval`) for each
unmatched field name. -/
def dictOfZip (names : List String) (cells : List String) : List (String × Option String) :=
  insertNones (insertPairs [] (names.zip cells)) (names.drop cells.length)

/-- Line 86, `{key: maybe_float(value) for key, value in row.items()}`:
coerce each cell; a `None` value (the `restval` of a short row) makes
`float(None)` raise `TypeError`, which `maybe_float` does not catch. -/
def coerceDict : List (String × Option String) → Except PyError Record
  | [] => Except.ok []
  | (k, v) :: rest =>
    match v with
    | none => Except.error PyError.typeError
    | some s =>
      match coerceDict rest with
      | Except.error e => Except.error e
      | Except.ok r => Except.ok ((k, maybe_float s) :: r)

/-- Lines 83-89, one loop iteration: build the `DictReader` row dictionary,
coerce it, and construct the `DynamicDataClass` instance.  When the row is
longer than the field list, `DictReader` stores the extra cells as a `list`
under the non-string `restkey` `None`, and `float()` on that list raises
`TypeError`.  After `make_dataclass` succeeded the field names are distinct,
so on success the dictionary keys are exactly the field names and the
constructor call `DynamicDataClass(**row)` succeeds, yielding the coerced
dictionary as the instance's fields. -/
def makeRecord (names : List String) (row : List String) : Except PyError Record :=
  if names.length < row.length then Except.error PyError.typeError
  else coerceDict (dictOfZip names row)

/-- The `for row in reader` loop (lines 83-89): records in input order, the
first raised exception aborting the whole call. -/
def mapRecords (names : List String) : List (List String) → Except PyError (List Record)
  | [] => Except.ok []
  | r :: rest =>
    match makeRecord names r with
    | Except.error e => Except.error e
    | Except.ok rec =>
      match mapRecords names rest with
      | Except.error e => Except.error e
      | Except.ok recs => Except.ok (rec :: recs)

/-- `create_dataclass_from_csv` (lines 51-91).  The argument is the parsed row
sequence of the file at `csv_filepath` (`none` when `open` fails).  First
pass (lines 60-65): `next` twice over `csv.reader` - `StopIteration` if the
file has fewer than two lines - then sanitize the header tokens (`IndexError`
on an empty token) and validate them as dataclass field names (line 68).
Second pass (lines 77-91): `csv.DictReader` skips blank rows entirely, so the
two discarding `next` calls consume the first two non-blank rows
(`StopIteration` if there are fewer), and every remaining non-blank row
becomes one record. -/
def create_dataclass_from_csv (file : Option (List (List String))) :
    Except PyError (List Record) :=
  match file with
  | none => Except.error PyError.ioError
  | some rows =>
    match rows with
    | [] => Except.error PyError.stopIteration
    | [_] => Except.error PyError.stopIteration
    | _ :: header :: _ =>
      if header.any (fun t => t == "") then Except.error PyError.indexError
      else
        let names := header.map sanitize_field_name
        match checkFields [] names with
        | Except.error e => Except.error e
        | Except.ok _ =>
          match rows.filter (fun r => !r.isEmpty) with
          | _ :: _ :: dataRows => mapRecords names dataRows
          | _ => Except.error PyError.stopIteration

/-- `noDoubleUnderscore l` holds when no two consecutive characters of `l` are
both underscores (the invariant established by line 33). -/
def noDoubleUnderscore : List Char → Bool
  | c1 :: c2 :: rest => (!(c1 == '_' && c2 == '_')) && noDoubleUnderscore (c2 :: rest)
  | _ => true

/-! ## Properties of the sanitizer -/

theorem translit_ne_nil (c : Char) : translit c ≠ [] := by
  unfold translit
  split_ifs <;> simp

theorem translitAll_ne_nil {l : List Char} (h : l ≠ []) : translitAll l ≠ [] := by
  cases l with
  | nil => exact absurd rfl h
  | cons c rest =>
    simp only [translitAll, ne_eq, List.append_eq_nil]
    intro hap
    exact translit_ne_nil c hap.1

theorem guardDigit_ne_nil {l : List Char} (h : l ≠ []) : guardDigit l ≠ [] := by
  cases l with
  | nil => exact absurd rfl h
  | cons c rest =>
    simp only [guardDigit]
    split_ifs <;> simp

theorem collapseAux_false_cons (c : Char) (rest : List Char) :
    collapseAux false (c :: rest) =
      if c == '_' then '_' :: collapseAux true rest else c :: collapseAux false rest := by
  simp [collapseAux]

theorem sanitizeChars_ne_nil {l : List Char} (h : l ≠ []) : sanitizeChars l ≠ [] := by
  unfold sanitizeChars
  obtain ⟨c, rest, hcr⟩ :=
    List.exists_cons_of_ne_nil (translitAll_ne_nil (guardDigit_ne_nil h))
  rw [hcr, List.map_cons, collapseAux_false_cons]
  split_ifs <;> simp

theorem mem_collapseAux {c : Char} : ∀ (l : List Char) (b : Bool), c ∈ collapseAux b l → c ∈ l := by
  intro l
  induction l with
  | nil => intro b h; simp [collapseAux] at h
  | cons a rest ih =>
    intro b h
    unfold collapseAux at h
    by_cases ha : a = '_'
    · subst ha
      simp only [beq_self_eq_true, if_true] at h
      cases b with
      | true => exact List.mem_cons_of_mem _ (ih true h)
      | false =>
        simp only [Bool.false_eq_true, if_false] at h
        rcases List.mem_cons.mp h with h | h
        · exact h ▸ List.mem_cons_self _ _
        · exact List.mem_cons_of_mem _ (ih true h)
    · rw [if_neg (by simpa using ha)] at h
      rcases List.mem_cons.mp h with h | h
      · exact h ▸ List.mem_cons_self _ _
      · exact List.mem_cons_of_mem _ (ih false h)

theorem isIdentChar_replaceInvalid (c : Char) : isIdentChar (replaceInvalid c) = true := by
  unfold replaceInvalid
  split_ifs with h
  · exact h
  · decide

theorem sanitizeChars_valid (l : List Char) : (sanitizeChars l).all isIdentChar = true := by
  rw [List.all_eq_true]
  intro c hc
  obtain ⟨a, _, rfl⟩ := List.mem_map.mp (mem_collapseAux _ false hc)
  exact isIdentChar_replaceInvalid a

theorem collapseAux_false_head (c : Char) (rest : List Char) :
    (collapseAux false (c :: rest)).head? = some c := by
  rw [collapseAux_false_cons]
  by_cases h : c = '_' <;> simp [h]

theorem translit_head_not_digit {a : Char} (h : a.isDigit = false) :
    ∃ c t, translit a = c :: t ∧ (replaceInvalid c).isDigit = false := by
  unfold translit
  split_ifs with h1 h2 h3 h4 h5 h6 h7
  · exact ⟨'a', ['e'], rfl, by decide⟩
  · exact ⟨'o', ['e'], rfl, by decide⟩
  · exact ⟨'u', ['e'], rfl, by decide⟩
  · exact ⟨'s', ['s'], rfl, by decide⟩
  · exact ⟨'A', ['e'], rfl, by decide⟩
  · exact ⟨'O', ['e'], rfl, by decide⟩
  · exact ⟨'U', ['e'], rfl, by decide⟩
  · refine ⟨a, [], rfl, ?_⟩
    unfold replaceInvalid
    split_ifs with hv
    · exact h
    · decide

theorem sanitizeChars_head_not_digit {l : List Char} (h : l ≠ []) :
    (sanitizeChars l).head?.all (fun c => !c.isDigit) = true := by
  obtain ⟨a, rest, rfl⟩ := List.exists_cons_of_ne_nil h
  unfold sanitizeChars
  simp only [guardDigit]
  by_cases hd : a.isDigit = true
  · rw [if_pos hd]
    rw [show translitAll ('F' :: a :: rest) = 'F' :: translitAll (a :: rest) from rfl]
    rw [List.map_cons, show replaceInvalid 'F' = 'F' from rfl, collapseAux_false_head]
    decide
  · rw [if_neg hd]
    obtain ⟨c, t, hct, hnd⟩ := translit_head_not_digit (Bool.eq_false_iff.mpr hd)
    rw [show translitAll (a :: rest) = translit a ++ translitAll rest from rfl, hct]
    rw [List.cons_append, List.map_cons, collapseAux_false_head]
    simp [hnd]

theorem noDoubleUnderscore_cons {c : Char} {l : List Char}
    (h1 : noDoubleUnderscore l = true) (h2 : c = '_' → l.head? ≠ some '_') :
    noDoubleUnderscore (c :: l) = true := by
  cases l with
  | nil => rfl
  | cons d l' =>
    unfold noDoubleUnderscore
    rw [Bool.and_eq_true]
    refine ⟨?_, h1⟩
    by_cases hc : c = '_'
    · have hd : d ≠ '_' := fun hd => h2 hc (by rw [hd]; rfl)
      simp [hd]
    · simp [hc]

theorem collapseAux_true_head : ∀ (l : List Char), (collapseAux true l).head? ≠ some '_' := by
  intro l
  induction l with
  | nil => simp [collapseAux]
  | cons c rest ih =>
    unfold collapseAux
    by_cases hc : c = '_'
    · simpa [hc] using ih
    · simp [hc]

theorem noDoubleUnderscore_collapseAux :
    ∀ (l : List Char) (b : Bool), noDoubleUnderscore (collapseAux b l) = true := by
  intro l
  induction l with
  | nil => intro b; rfl
  | cons c rest ih =>
    intro b
    unfold collapseAux
    by_cases hc : c = '_'
    · subst hc
      simp only [beq_self_eq_true, if_true]
      cases b with
      | true => exact ih true
      | false =>
        simp only [Bool.false_eq_true, if_false]
        exact noDoubleUnderscore_cons (ih true) (fun _ => collapseAux_true_head rest)
    · rw [if_neg (by simpa using hc)]
      exact noDoubleUnderscore_cons (ih false) (fun hcc => absurd hcc hc)

/-! ## The claims about the sanitizer -/

/-- C2: for every non-empty input string, `sanitize_field_name` returns (it is a
total function; the `field_name[0]` access that would fail in Python exists,
since the string is non-empty), and its result is a non-empty string consisting
only of ASCII letters, ASCII digits and underscores, that does not begin with a
digit and contains no run of two or more consecutive underscores. -/
theorem sanitize_field_name_wellformed (s : String) (h : s ≠ "") :
    sanitize_field_name s ≠ "" ∧
    (sanitize_field_name s).data.all isIdentChar = true ∧
    (sanitize_field_name s).data.head?.all (fun c => !c.isDigit) = true ∧
    noDoubleUnderscore (sanitize_field_name s).data = true := by
  have hd : s.data ≠ [] := fun hnil => h (String.ext hnil)
  refine ⟨?_, sanitizeChars_valid _, sanitizeChars_head_not_digit hd, ?_⟩
  · intro he
    exact sanitizeChars_ne_nil hd (congrArg String.data he)
  · exact noDoubleUnderscore_collapseAux _ false

/-- Witness for C2 at the concrete input `"1a ö!"`, whose sanitized form is
`"F1a_oe_"`. -/
theorem sanitize_field_name_wellformed_witness :
    ("1a ö!" : String) ≠ "" ∧
    (sanitize_field_name "1a ö!" ≠ "" ∧
      (sanitize_field_name "1a ö!").data.all isIdentChar = true ∧
      (sanitize_field_name "1a ö!").data.head?.all (fun c => !c.isDigit) = true ∧
      noDoubleUnderscore (sanitize_field_name "1a ö!").data = true) :=
  ⟨by decide, sanitize_field_name_wellformed "1a ö!" (by decide)⟩

/-- C6: `sanitize_field_name "1Foo"` prepends the digit-guard marker letter `F`
to the whole token: the result is `"F1Foo"`, which starts with the marker
letter and is followed by the rest of the token, ending in `"Foo"`. -/
theorem sanitize_digit_guard :
    sanitize_field_name "1Foo" = "F1Foo" ∧
    (sanitize_field_name "1Foo").data.head? = some 'F' ∧
    List.IsSuffix ("Foo" : String).data (sanitize_field_name "1Foo").data :=
  ⟨by decide, by decide, ⟨['F', '1'], by decide⟩⟩

/-! ## The claim about the value coercer -/

/-- C3: `maybe_float` returns the parsed numeric value exactly when the whole
string is accepted by the host's numeric parser (with optional surrounding
whitespace and scientific notation), and otherwise returns the original string
unchanged.  In particular `"3.14"` coerces to the number `3.14 = 157/50`,
`"1e5"` to the number `100000`, and `"abc"` stays the text `"abc"`. -/
theorem maybe_float_spec :
    (∀ s : String,
      (∀ f, pyFloatOfString s = some f → maybe_float s = Value.num f) ∧
      (pyFloatOfString s = none → maybe_float s = Value.str s)) ∧
    maybe_float "3.14" = Value.num (PyFloat.finite (157 / 50)) ∧
    maybe_float "1e5" = Value.num (PyFloat.finite 100000) ∧
    maybe_float "abc" = Value.str "abc" := by
  refine ⟨fun s => ⟨fun f hf => ?_, fun hn => ?_⟩, ?_, rfl, rfl⟩
  · unfold maybe_float
    rw [hf]
  · unfold maybe_float
    rw [hn]
  · rw [show maybe_float "3.14" = Value.num (PyFloat.finite (mkRat 314 100)) from rfl]
    norm_num [Rat.mkRat_eq_div]

/-- Witness for C3: the parser part applied at the concrete accepted input
`"2.5"` and at the concrete rejected input `"x y"`. -/
theorem maybe_float_spec_witness :
    maybe_float "2.5" = Value.num (PyFloat.finite (mkRat 25 10)) ∧
    maybe_float "x y" = Value.str "x y" :=
  ⟨(maybe_float_spec.1 "2.5").1 (PyFloat.finite (mkRat 25 10)) (by decide),
   (maybe_float_spec.1 "x y").2 (by decide)⟩

/-! ## Properties of the record pipeline -/

theorem checkFields_nodup : ∀ (names seen : List String),
    checkFields seen names = Except.ok () → names.Nodup ∧ ∀ n ∈ names, n ∉ seen := by
  intro names
  induction names with
  | nil => intro seen _; exact ⟨List.nodup_nil, by simp⟩
  | cons n rest ih =>
    intro seen h
    unfold checkFields at h
    split_ifs at h with h1 h2 h3
    obtain ⟨hrest, hseen⟩ := ih (n :: seen) h
    have hn_rest : n ∉ rest := fun hmem => hseen n hmem (List.mem_cons_self _ _)
    refine ⟨List.nodup_cons.mpr ⟨hn_rest, hrest⟩, ?_⟩
    intro m hm
    rcases List.mem_cons.mp hm with hm | hm
    · subst hm
      intro hin
      exact h3 (List.elem_iff.mpr hin)
    · intro hin
      exact hseen m hm (List.mem_cons_of_mem _ hin)

theorem checkFields_typeError : ∀ (names seen : List String),
    checkFields seen names = Except.ok () ∨
      checkFields seen names = Except.error PyError.typeError := by
  intro names
  induction names with
  | nil => intro seen; exact Or.inl rfl
  | cons n rest ih =>
    intro seen
    unfold checkFields
    split_ifs
    · exact Or.inr rfl
    · exact Or.inr rfl
    · exact Or.inr rfl
    · exact ih (n :: seen)

theorem dictInsert_fresh {d : List (String × Option String)} {k : String}
    (h : ∀ p ∈ d, p.1 ≠ k) (v : Option String) :
    dictInsert d k v = d ++ [(k, v)] := by
  have hfalse : d.any (fun p => p.1 == k) = false := by
    rw [List.any_eq_false]
    intro p hp
    simpa using h p hp
  unfold dictInsert
  rw [hfalse]
  simp

theorem insertPairs_eq : ∀ (ps : List (String × String)) (d : List (String × Option String)),
    (ps.map Prod.fst).Nodup → (∀ k ∈ ps.map Prod.fst, ∀ p ∈ d, p.1 ≠ k) →
    insertPairs d ps = d ++ ps.map (fun p => (p.1, some p.2)) := by
  intro ps
  induction ps with
  | nil => intro d _ _; simp [insertPairs]
  | cons p rest ih =>
    intro d hnd hdisj
    have hp1 : p.1 ∉ rest.map Prod.fst := (List.nodup_cons.mp (by simpa using hnd)).1
    unfold insertPairs
    rw [dictInsert_fresh (fun q hq => hdisj p.1 (by simp) q hq) (some p.2)]
    rw [ih (d ++ [(p.1, some p.2)]) (by simpa using hnd.of_cons) ?_]
    · simp
    · intro k hk q hq
      rcases List.mem_append.mp hq with hq | hq
      · exact hdisj k (by simp [List.mem_cons_of_mem, hk]) q hq
      · have hq' : q = (p.1, some p.2) := by simpa using hq
        rw [hq']
        intro hkp
        exact hp1 (hkp ▸ hk)

theorem insertNones_eq : ∀ (ks : List String) (d : List (String × Option String)),
    ks.Nodup → (∀ k ∈ ks, ∀ p ∈ d, p.1 ≠ k) →
    insertNones d ks = d ++ ks.map (fun k => (k, (none : Option String))) := by
  intro ks
  induction ks with
  | nil => intro d _ _; simp [insertNones]
  | cons k rest ih =>
    intro d hnd hdisj
    have hk1 : k ∉ rest := (List.nodup_cons.mp hnd).1
    unfold insertNones
    rw [dictInsert_fresh (fun q hq => hdisj k (by simp) q hq) none]
    rw [ih (d ++ [(k, none)]) (List.nodup_cons.mp hnd).2 ?_]
    · simp
    · intro m hm q hq
      rcases List.mem_append.mp hq with hq | hq
      · exact hdisj m (List.mem_cons_of_mem _ hm) q hq
      · have hq' : q = (k, none) := by simpa using hq
        rw [hq']
        intro hkm
        exact hk1 ((show k = m from hkm) ▸ hm)

theorem zip_map_fst : ∀ (names cells : List String),
    (names.zip cells).map Prod.fst = names.take cells.length := by
  intro names
  induction names with
  | nil => intro cells; simp
  | cons n rest ih =>
    intro cells
    cases cells with
    | nil => simp
    | cons c cs => simp [ih cs]

/-- With distinct field names (guaranteed after `make_dataclass` succeeded),
the `DictReader` row dictionary is simply the zipped pairs followed by the
`restval`-`None` entries for the unmatched tail of the field names. -/
theorem dictOfZip_eq {names cells : List String} (hn : names.Nodup) :
    dictOfZip names cells = (names.zip cells).map (fun p => (p.1, some p.2))
      ++ (names.drop cells.length).map (fun k => (k, (none : Option String))) := by
  have htd := List.take_append_drop cells.length names
  have hsplit := List.nodup_append.mp (htd ▸ hn)
  unfold dictOfZip
  rw [insertPairs_eq _ [] (by rw [zip_map_fst]; exact hsplit.1) (by simp)]
  rw [insertNones_eq _ _ hsplit.2.1 ?_]
  · simp
  · intro k hk q hq
    simp only [List.nil_append] at hq
    obtain ⟨p, hp, rfl⟩ := List.mem_map.mp hq
    intro hpk
    have hmem : p.1 ∈ names.take cells.length := by
      rw [← zip_map_fst]
      exact List.mem_map_of_mem Prod.fst hp
    exact hsplit.2.2 hmem (hpk ▸ hk)

theorem dictOfZip_keys {names cells : List String} (hn : names.Nodup) :
    (dictOfZip names cells).map Prod.fst = names := by
  rw [dictOfZip_eq hn, List.map_append, List.map_map, List.map_map]
  have h1 : (Prod.fst ∘ fun p : String × String => (p.1, some p.2)) = Prod.fst := rfl
  have h2 : (Prod.fst ∘ fun k : String => (k, (none : Option String))) = id := rfl
  rw [h1, h2, zip_map_fst, List.map_id, List.take_append_drop]

theorem coerceDict_keys : ∀ {d : List (String × Option String)} {rec : Record},
    coerceDict d = Except.ok rec → rec.map Prod.fst = d.map Prod.fst := by
  intro d
  induction d with
  | nil =>
    intro rec h
    simp only [coerceDict, Except.ok.injEq] at h
    rw [← h]
    rfl
  | cons p rest ih =>
    intro rec h
    obtain ⟨k, v⟩ := p
    cases v with
    | none => simp [coerceDict] at h
    | some s =>
      unfold coerceDict at h
      cases hr : coerceDict rest with
      | error e => rw [hr] at h; simp at h
      | ok r =>
        rw [hr] at h
        simp only [Except.ok.injEq] at h
        rw [← h, List.map_cons, List.map_cons, ih hr]

/-- Coercion fails with `TypeError` at the first `None` value: `float(None)`
raises outside the `except ValueError` handler. -/
theorem coerceDict_error : ∀ (front : List (String × Option String)) (k : String)
    (tail : List (String × Option String)), (∀ p ∈ front, p.2 ≠ none) →
    coerceDict (front ++ (k, none) :: tail) = Except.error PyError.typeError := by
  intro front
  induction front with
  | nil => intro k tail _; simp [coerceDict]
  | cons p rest ih =>
    intro k tail hf
    obtain ⟨k', v'⟩ := p
    cases v' with
    | none => exact absurd rfl (hf (k', none) (List.mem_cons_self _ _))
    | some s =>
      rw [List.cons_append]
      unfold coerceDict
      rw [ih k tail (fun q hq => hf q (List.mem_cons_of_mem _ hq))]

theorem makeRecord_keys {names row : List String} {rec : Record} (hn : names.Nodup)
    (h : makeRecord names row = Except.ok rec) : rec.map Prod.fst = names := by
  unfold makeRecord at h
  split_ifs at h
  rw [coerceDict_keys h, dictOfZip_keys hn]

/-- A short data row makes the load raise `TypeError`: the `restval` for the
unmatched tail of the header is `None`, and `float(None)` is not caught. -/
theorem makeRecord_short {names row : List String} (hn : names.Nodup)
    (hlt : row.length < names.length) :
    makeRecord names row = Except.error PyError.typeError := by
  unfold makeRecord
  rw [if_neg (by omega)]
  have hdrop : names.drop row.length ≠ [] := by
    rw [ne_eq, List.drop_eq_nil_iff]
    omega
  obtain ⟨k, ks, hk⟩ := List.exists_cons_of_ne_nil hdrop
  rw [dictOfZip_eq hn, hk, List.map_cons]
  exact coerceDict_error _ k _
    (fun p hp => by obtain ⟨q, _, rfl⟩ := List.mem_map.mp hp; simp)

theorem mapRecords_mem {names : List String} : ∀ {l : List (List String)} {recs : List Record},
    mapRecords names l = Except.ok recs →
    ∀ rec ∈ recs, ∃ row, makeRecord names row = Except.ok rec := by
  intro l
  induction l with
  | nil =>
    intro recs h rec hrec
    simp only [mapRecords, Except.ok.injEq] at h
    rw [← h] at hrec
    simp at hrec
  | cons r rest ih =>
    intro recs h rec hrec
    unfold mapRecords at h
    cases hr : makeRecord names r with
    | error e => rw [hr] at h; simp at h
    | ok rec0 =>
      rw [hr] at h
      cases hrest : mapRecords names rest with
      | error e => rw [hrest] at h; simp at h
      | ok recs' =>
        rw [hrest] at h
        simp only [Except.ok.injEq] at h
        rw [← h] at hrec
        rcases List.mem_cons.mp hrec with hrec | hrec
        · exact ⟨r, hrec ▸ hr⟩
        · exact ih hrest rec hrec

/-- Unfolding of the load once the header has passed sanitization and the
`make_dataclass` validation. -/
theorem load_eq (r0 header : List String) (rest : List (List String))
    (hany : header.any (fun t => t == "") = false)
    (hck : checkFields [] (header.map sanitize_field_name) = Except.ok ()) :
    create_dataclass_from_csv (some (r0 :: header :: rest)) =
      match (r0 :: header :: rest).filter (fun r => !r.isEmpty) with
      | _ :: _ :: dataRows => mapRecords (header.map sanitize_field_name) dataRows
      | _ => Except.error PyError.stopIteration := by
  simp only [create_dataclass_from_csv, hany, Bool.false_eq_true, if_false, hck]

/-! ## The claims about the record pipeline -/

/-- C1: loading a file made of a sentinel line, the header line `A,B` and the
single data row `1,x` yields exactly one record, whose field `A` holds the
number `1` and whose field `B` holds the text `"x"`. -/
theorem load_roundtrip (s : List String) (hs : s ≠ []) :
    create_dataclass_from_csv (some [s, ["A", "B"], ["1", "x"]]) =
      Except.ok [[("A", Value.num (PyFloat.finite 1)), ("B", Value.str "x")]] := by
  obtain ⟨a, as, rfl⟩ := List.exists_cons_of_ne_nil hs
  rfl

/-- Witness for C1 with the sentinel line `sep=,` (whose CSV cells are
`["sep=", ""]`). -/
theorem load_roundtrip_witness :
    (["sep=", ""] : List String) ≠ [] ∧
    create_dataclass_from_csv (some [["sep=", ""], ["A", "B"], ["1", "x"]]) =
      Except.ok [[("A", Value.num (PyFloat.finite 1)), ("B", Value.str "x")]] :=
  ⟨by decide, load_roundtrip ["sep=", ""] (by decide)⟩

/-- C4: every record of a successfully loaded file has exactly the field names
obtained by sanitizing that file's header tokens, in the same order and with
the same count (the `make_dataclass` validation guarantees they are distinct,
and `DictReader` assigns cells positionally against that very list). -/
theorem load_shape (r0 header : List String) (rest : List (List String)) (recs : List Record)
    (h : create_dataclass_from_csv (some (r0 :: header :: rest)) = Except.ok recs) :
    ∀ rec ∈ recs, rec.map Prod.fst = header.map sanitize_field_name := by
  simp only [create_dataclass_from_csv] at h
  split_ifs at h with hemp
  cases hcf : checkFields [] (header.map sanitize_field_name) with
  | error e => rw [hcf] at h; simp at h
  | ok u =>
    cases u
    simp only [hcf] at h
    cases hf1 : (r0 :: header :: rest).filter (fun r => !r.isEmpty) with
    | nil => simp only [hf1] at h; exact Except.noConfusion h
    | cons x xs =>
      cases xs with
      | nil => simp only [hf1] at h; exact Except.noConfusion h
      | cons y dataRows =>
        simp only [hf1] at h
        intro rec hrec
        obtain ⟨row, hrow⟩ := mapRecords_mem h rec hrec
        exact makeRecord_keys (checkFields_nodup _ _ hcf).1 hrow

/-- Witness for C4 at a concrete two-column file with one data row. -/
theorem load_shape_witness :
    create_dataclass_from_csv (some [["s"], ["A", "B"], ["1", "2"]]) =
      Except.ok [[("A", Value.num (PyFloat.finite 1)), ("B", Value.num (PyFloat.finite 2))]] ∧
    ∀ rec ∈ [[("A", Value.num (PyFloat.finite 1)), ("B", Value.num (PyFloat.finite 2))]],
      List.map Prod.fst rec = ["A", "B"].map sanitize_field_name :=
  ⟨rfl, load_shape ["s"] ["A", "B"] [["1", "2"]] _ rfl⟩

/-- C5 counterexample: on the file `sep=,` / `A,B` / `1` (a data row with
fewer cells than the header has field names) the load does not yield a record
with missing fields: it fails with `TypeError`, because the unmatched field
`B` receives the `restval` `None` and `float(None)` raises outside the
`except ValueError` handler. -/
theorem load_short_row_fails :
    create_dataclass_from_csv (some [["sep=", ""], ["A", "B"], ["1"]]) =
      Except.error PyError.typeError := rfl

/-- C5 amended: a data row with fewer cells than the header does not yield a
record; the cells that are present are matched positionally, the unmatched
tail of the header is filled with the non-string `restval` placeholder, and
coercing that placeholder raises an uncaught type error, so the whole load
fails. -/
theorem load_short_row (s h row : List String) (hs : s ≠ [])
    (hne : ∀ t ∈ h, t ≠ "") (hrow : row ≠ []) (hlen : row.length < h.length)
    (hck : checkFields [] (h.map sanitize_field_name) = Except.ok ()) :
    create_dataclass_from_csv (some [s, h, row]) = Except.error PyError.typeError := by
  have hh : h ≠ [] := by
    intro hnil
    rw [hnil] at hlen
    simp at hlen
  have hanyf : h.any (fun t => t == "") = false := by
    rw [List.any_eq_false]
    intro t ht
    simpa using hne t ht
  rw [load_eq s h [row] hanyf hck]
  have hfil : ([s, h, row].filter (fun r => !r.isEmpty)) = [s, h, row] := by
    obtain ⟨a, as, rfl⟩ := List.exists_cons_of_ne_nil hs
    obtain ⟨b, bs, rfl⟩ := List.exists_cons_of_ne_nil hh
    obtain ⟨c, cs, rfl⟩ := List.exists_cons_of_ne_nil hrow
    rfl
  rw [hfil]
  have hmk := @makeRecord_short (h.map sanitize_field_name) row
    (checkFields_nodup _ _ hck).1 (by simpa using hlen)
  simp only [mapRecords, hmk]

/-- Witness for the amended C5 at the concrete short-row file. -/
theorem load_short_row_witness :
    (∀ t ∈ (["A", "B"] : List String), t ≠ "") ∧
    checkFields [] (["A", "B"].map sanitize_field_name) = Except.ok () ∧
    create_dataclass_from_csv (some [["x"], ["A", "B"], ["9"]]) =
      Except.error PyError.typeError :=
  ⟨by decide, rfl, load_short_row ["x"] ["A", "B"] ["9"] (by decide) (by decide)
    (by decide) (by decide) rfl⟩

/-- C7 counterexample: on the file `sep=,` / `a!,a?` / `1,2`, whose two header
tokens both sanitize to `a_`, the load does not succeed with a single
silently-overwritten field: `make_dataclass` rejects the duplicated field name
with `TypeError` and the load fails. -/
theorem load_duplicate_fails :
    create_dataclass_from_csv (some [["sep=", ""], ["a!", "a?"], ["1", "2"]]) =
      Except.error PyError.typeError := rfl

/-- C7 amended: when two header tokens sanitize to the same field name the
load does not deduplicate them, but it does not silently overwrite one field
either: the `make_dataclass` validation rejects the duplicated name and the
load fails with a type error. -/
theorem load_duplicate (r0 header : List String) (rest : List (List String))
    (hne : ∀ t ∈ header, t ≠ "")
    (hdup : ¬ (header.map sanitize_field_name).Nodup) :
    create_dataclass_from_csv (some (r0 :: header :: rest)) =
      Except.error PyError.typeError := by
  have hanyf : header.any (fun t => t == "") = false := by
    rw [List.any_eq_false]
    intro t ht
    simpa using hne t ht
  rcases checkFields_typeError (header.map sanitize_field_name) [] with hok | herr
  · exact absurd (checkFields_nodup _ _ hok).1 hdup
  · simp only [create_dataclass_from_csv, hanyf, Bool.false_eq_true, if_false, herr]

/-- Witness for the amended C7 at the concrete duplicate-header file. -/
theorem load_duplicate_witness :
    (∀ t ∈ (["a!", "a?"] : List String), t ≠ "") ∧
    ¬ ((["a!", "a?"] : List String).map sanitize_field_name).Nodup ∧
    create_dataclass_from_csv (some [["x"], ["a!", "a?"], ["3", "4"]]) =
      Except.error PyError.typeError :=
  ⟨by decide, by decide, load_duplicate ["x"] ["a!", "a?"] [["3", "4"]]
    (by decide) (by decide)⟩

/-- C8: a file with fewer than two lines fails with the malformed-input error
(`StopIteration` from the `next` calls that read the sentinel and header
lines), and no record collection is returned. -/
theorem load_too_short (rows : List (List String)) (h : rows.length < 2) :
    create_dataclass_from_csv (some rows) = Except.error PyError.stopIteration := by
  cases rows with
  | nil => rfl
  | cons a t =>
    cases t with
    | nil => rfl
    | cons b t' => simp only [List.length_cons] at h; omega

/-- Witness for C8 at the empty file and at a one-line file. -/
theorem load_too_short_witness :
    ([] : List (List String)).length < 2 ∧
    create_dataclass_from_csv (some ([] : List (List String))) =
      Except.error PyError.stopIteration ∧
    create_dataclass_from_csv (some [["sep=", ""]]) = Except.error PyError.stopIteration :=
  ⟨by decide, load_too_short [] (by decide), load_too_short [["sep=", ""]] (by decide)⟩

/-- C9: a file that cannot be opened fails with the I/O error, and the load
is total in the sense that it returns either an error or a complete record
collection - never a partial one (`Except` has no other outcome). -/
theorem load_io_error_total :
    create_dataclass_from_csv none = Except.error PyError.ioError ∧
    ∀ file : Option (List (List String)),
      (∃ e, create_dataclass_from_csv file = Except.error e) ∨
      (∃ recs, create_dataclass_from_csv file = Except.ok recs) := by
  refine ⟨rfl, fun file => ?_⟩
  cases hr : create_dataclass_from_csv file with
  | error e => exact Or.inl ⟨e, rfl⟩
  | ok recs => exact Or.inr ⟨recs, rfl⟩

/-- C10 counterexample: the file consisting of exactly the sentinel line
`sep=,` and the header line `a,a` (and no data rows) does not load to an empty
collection: the two header tokens sanitize to the same name and
`make_dataclass` rejects the duplicate with `TypeError`. -/
theorem load_header_only_fails :
    create_dataclass_from_csv (some [["sep=", ""], ["a", "a"]]) =
      Except.error PyError.typeError := rfl

/-- C10 amended: a file containing exactly a non-blank sentinel line and a
non-blank header line whose tokens are non-empty and whose sanitized names
pass the `make_dataclass` validation (distinct, non-keyword identifiers) loads
successfully to the empty record collection. -/
theorem load_header_only (s h : List String) (hs : s ≠ []) (hh : h ≠ [])
    (hne : ∀ t ∈ h, t ≠ "")
    (hck : checkFields [] (h.map sanitize_field_name) = Except.ok ()) :
    create_dataclass_from_csv (some [s, h]) = Except.ok [] := by
  have hanyf : h.any (fun t => t == "") = false := by
    rw [List.any_eq_false]
    intro t ht
    simpa using hne t ht
  rw [load_eq s h [] hanyf hck]
  have hfil : ([s, h].filter (fun r => !r.isEmpty)) = [s, h] := by
    obtain ⟨a, as, rfl⟩ := List.exists_cons_of_ne_nil hs
    obtain ⟨b, bs, rfl⟩ := List.exists_cons_of_ne_nil hh
    rfl
  rw [hfil]
  rfl

/-- Witness for the amended C10 at a concrete sentinel-plus-header file. -/
theorem load_header_only_witness :
    ((["sep=", ""] : List String) ≠ [] ∧ (["A", "B"] : List String) ≠ []) ∧
    checkFields [] (["A", "B"].map sanitize_field_name) = Except.ok () ∧
    create_dataclass_from_csv (some [["sep=", ""], ["A", "B"]]) = Except.ok [] :=
  ⟨by decide, rfl, load_header_only ["sep=", ""] ["A", "B"] (by decide) (by decide)
    (by decide) rfl⟩

end CsvReader
